import Mathlib

/-!
Formal model of the SignLanguage acquisition pipeline.

This file embeds, in Lean 4, the core functions of
`src/datasets/DGS_Korpus/DGS_Korpus.py` (the Acquisition & Ledger Engine,
the duplicate-title disambiguation, the metadata extractor and the
duration formatter) and of `src/datasets/Youtube-SL-25/youtube-sl-25.py`
(the per-language batch step with its conflict policy), and proves the
specified properties about them.

Modelling conventions:
- Network fetches are modelled by an oracle `att : String → Nat → Option String`
  giving, for a URL and an attempt index, `none` when the attempt succeeds and
  `some e` when the underlying HTTP request raises a request exception with
  message `e`.  The Python `try/except requests.exceptions.RequestException`
  block corresponds to the `match` on this oracle.
- `logging.warning` calls are collected in an explicit list of warning strings.
- Python floats are modelled as rationals (`ℚ`); the claims proved here do
  not depend on binary floating-point rounding.
- A Python `TypeError` raised by `download_file_row` is modelled by the
  `Except String` error channel.
-/

namespace SignLanguage

/-- `os.path.join` restricted to two components, as used in the scripts. -/
def joinPath (a b : String) : String := a ++ "/" ++ b

/-- `os.path.basename`: the part of the URL after the last slash. -/
def basename (s : String) : String :=
  ((s.splitOn "/").getLast?).getD s

/-! ### Catalog cells and ledger values

A catalog resource cell, as stored in one column of the scraped DataFrame
row handed to `download_file_row`: Python `None` (absent), a `str` URL
(single), a `list` of URLs (multiple), or any other value (which makes
`download_file_row` raise a `TypeError`). -/

inductive Cell
  | absent
  | single (url : String)
  | multiple (urls : List String)
  | other (descr : String)
  deriving DecidableEq, Repr

/-- Whether a cell is of the unexpected kind that raises a `TypeError`. -/
def Cell.isOther : Cell → Bool
  | .other _ => true
  | _ => false

/-- A value stored by `download_file_row` in the resulting `Paths` series:
Python `None`, one local filename, or a list of filename-or-`None`. -/
inductive LVal
  | vnone
  | vstr (p : String)
  | vlist (ps : List (Option String))
  deriving DecidableEq, Repr

/-! ### `download_file` -/

/-- One warning line of the retry loop in `download_file`. -/
def attemptWarning (url : String) (attempt maxRetries : Nat) (e : String) : String :=
  "Failed to download " ++ url ++ " (Attempt " ++ toString (attempt + 1) ++ "/" ++
    toString maxRetries ++ "): " ++ e

/-- The terminal warning of `download_file` after all retries failed. -/
def finalWarning (url : String) (maxRetries : Nat) : String :=
  "Url " ++ url ++ " could not be downloaded after " ++ toString maxRetries ++ " attempts."

/-- The retry loop of `download_file`: `i` is the current attempt index,
`rem + 1` the number of attempts still allowed (`rem = 0` means this is
attempt `max_retries - 1`, after which the final warning is emitted and
`None` returned).  Returns the saved path (or `none`) and the emitted
warnings. -/
def downloadLoop (att : Nat → Option String) (url savePath : String) (maxRetries : Nat) :
    Nat → Nat → Option String × List String
  | _, 0 => (none, [])
  | i, rem + 1 =>
    match att i with
    | none => (some savePath, [])
    | some e =>
      let w := attemptWarning url i maxRetries e
      if rem = 0 then
        (none, [w, finalWarning url maxRetries])
      else
        let r := downloadLoop att url savePath maxRetries (i + 1) rem
        (r.1, w :: r.2)

/-- `download_file(url, save_path, ca_cert, max_retries)`: returns the saved
path, or `none` after `max_retries` failed attempts, together with the
warnings logged along the way. -/
def download_file (att : Nat → Option String) (url savePath : String)
    (maxRetries : Nat) : Option String × List String :=
  downloadLoop att url savePath maxRetries 0 maxRetries

/-! ### `download_file_row` -/

/-- Processing of one resource cell inside the loop of `download_file_row`:
an absent cell yields `None`; a single URL is downloaded (filename on
success, `None` on terminal failure); a list is downloaded element-wise;
any other cell raises a `TypeError`. -/
def processCell (att : String → Nat → Option String) (rowDir : String)
    (maxRetries : Nat) : Cell → Except String LVal
  | .absent => .ok .vnone
  | .single url =>
    let filename := basename url
    let filepath := joinPath rowDir filename
    match (download_file (att url) url filepath maxRetries).1 with
    | some _ => .ok (.vstr filename)
    | none => .ok .vnone
  | .multiple urls => .ok (.vlist (urls.map (fun url =>
      let filename := basename url
      let filepath := joinPath rowDir filename
      match (download_file (att url) url filepath maxRetries).1 with
      | some _ => some filename
      | none => none)))
  | .other descr => .error ("URL " ++ descr ++ " of unexpected type.")

/-- The pure value of `processCell` when the cell is not of the `other`
kind (used to state what `download_file_row` returns). -/
def processCellOk (att : String → Nat → Option String) (rowDir : String)
    (maxRetries : Nat) : Cell → LVal
  | .absent => .vnone
  | .single url =>
    let filename := basename url
    let filepath := joinPath rowDir filename
    match (download_file (att url) url filepath maxRetries).1 with
    | some _ => .vstr filename
    | none => .vnone
  | .multiple urls => .vlist (urls.map (fun url =>
      let filename := basename url
      let filepath := joinPath rowDir filename
      match (download_file (att url) url filepath maxRetries).1 with
      | some _ => some filename
      | none => none))
  | .other _ => .vnone

/-- The `for col in row.index` loop of `download_file_row`: processes the
cells in order, stopping at the first raised `TypeError`. -/
def processCells (att : String → Nat → Option String) (rowDir : String)
    (maxRetries : Nat) : List (String × Cell) → Except String (List (String × LVal))
  | [] => .ok []
  | c :: cs => do
    let v ← processCell att rowDir maxRetries c.2
    let vs ← processCells att rowDir maxRetries cs
    pure ((c.1, v) :: vs)

/-- `download_file_row(row, base_dir, ca_cert, max_retries)`: creates the
row directory `base_dir/<row name>` and downloads every cell, returning
the directory and the per-column ledger values, or the `TypeError`
message if some cell has an unexpected type.  `cells` is the row as an
ordered association list `(column, cell)`. -/
def download_file_row (att : String → Nat → Option String) (baseDir rowName : String)
    (cells : List (String × Cell)) (maxRetries : Nat) :
    Except String (String × List (String × LVal)) := do
  let rowDir := joinPath baseDir rowName
  let entries ← processCells att rowDir maxRetries cells
  pure (rowDir, entries)

/-- The batch loop of `download_data`: apply `download_file_row` to every
row of the catalog in order (`df["URLs"].progress_apply(download_file_row, ...)`).
The Python `apply` propagates the first exception raised by the row
function, which aborts the whole application. -/
def download_data_rows (att : String → Nat → Option String) (baseDir : String)
    (maxRetries : Nat) :
    List (String × List (String × Cell)) →
      Except String (List (String × (String × List (String × LVal))))
  | [] => .ok []
  | r :: rs => do
    let l ← download_file_row att baseDir r.1 r.2 maxRetries
    let ls ← download_data_rows att baseDir maxRetries rs
    pure ((r.1, l) :: ls)

/-- The ledger produced for a given row identifier by a finished batch,
if any: `none` both when the batch aborted with an error and when the
identifier is not present. -/
def ledgerFor (res : Except String (List (String × (String × List (String × LVal)))))
    (id_ : String) : Option (String × List (String × LVal)) :=
  match res with
  | .error _ => none
  | .ok ls => (ls.find? (fun l => l.1 = id_)).map Prod.snd

/-! ### Shape matching (the §3 invariant) -/

/-- The ledger value structurally matches the catalog cell: an absent slot
yields null, a single slot yields one filename or null, a multiple slot
yields a list of the same length with a filename or null per position. -/
def shapeMatches : Cell → LVal → Prop
  | .absent, lv => lv = .vnone
  | .single _, lv => lv = .vnone ∨ ∃ f, lv = .vstr f
  | .multiple urls, lv => ∃ ps, lv = .vlist ps ∧ ps.length = urls.length
  | .other _, _ => True

/-! ### Basic lemmas about the acquisition engine -/

/-- If every attempt in the remaining budget fails, the loop returns `none`,
and (when at least one attempt remains) at least one warning is logged. -/
theorem downloadLoop_all_fail (att : Nat → Option String) (url savePath : String)
    (maxRetries : Nat) :
    ∀ rem i, (∀ k, k < i + rem → att k ≠ none) →
      (downloadLoop att url savePath maxRetries i rem).1 = none ∧
      (rem ≠ 0 → (downloadLoop att url savePath maxRetries i rem).2 ≠ []) := by
  intro rem
  induction rem with
  | zero => intro i h; simp [downloadLoop]
  | succ n ih =>
    intro i h
    have hi := h i (by omega)
    cases hai : att i with
    | none => exact absurd hai hi
    | some e =>
      by_cases hn : n = 0
      · subst hn; simp [downloadLoop, hai]
      · have := ih (i + 1) (fun k hk => h k (by omega))
        simp [downloadLoop, hai, hn, this.1]

/-- `download_file` on a URL for which every one of the `max_retries`
attempts raises a request exception: `None` is returned (the slot value),
at least one warning is logged, and the exceptions are contained (the
function returns instead of propagating them). -/
theorem download_file_all_fail (att : Nat → Option String) (url savePath : String)
    (maxRetries : Nat) (hR : 1 ≤ maxRetries)
    (h : ∀ k, k < maxRetries → att k ≠ none) :
    (download_file att url savePath maxRetries).1 = none ∧
    (download_file att url savePath maxRetries).2 ≠ [] := by
  have := downloadLoop_all_fail att url savePath maxRetries maxRetries 0
    (fun k hk => h k (by omega))
  exact ⟨this.1, this.2 (by omega)⟩

/-- For a cell that is not of unexpected type, `processCell` returns
normally with the value given by `processCellOk`. -/
theorem processCell_ok (att : String → Nat → Option String) (rowDir : String)
    (maxRetries : Nat) (c : Cell) (hc : c.isOther = false) :
    processCell att rowDir maxRetries c = .ok (processCellOk att rowDir maxRetries c) := by
  cases c with
  | other d => simp [Cell.isOther] at hc
  | absent => rfl
  | single url =>
    simp only [processCell, processCellOk]
    cases (download_file (att url) url (joinPath rowDir (basename url)) maxRetries).1 <;> rfl
  | multiple urls => rfl

/-- If no cell in the list is of unexpected type, the cell loop returns
normally, with one ledger value per cell computed by `processCellOk`. -/
theorem processCells_ok (att : String → Nat → Option String) (rowDir : String)
    (maxRetries : Nat) (cells : List (String × Cell))
    (h : ∀ c ∈ cells, c.2.isOther = false) :
    processCells att rowDir maxRetries cells =
      .ok (cells.map (fun c => (c.1, processCellOk att rowDir maxRetries c.2))) := by
  induction cells with
  | nil => rfl
  | cons c cs ih =>
    have hc : c.2.isOther = false := h c (by simp)
    have hcs : ∀ x ∈ cs, x.2.isOther = false := fun x hx => h x (by simp [hx])
    simp only [processCells, processCell_ok att rowDir maxRetries c.2 hc, ih hcs,
      bind, Except.bind, List.map_cons, pure, Except.pure]

/-- If a cell list has no cell of unexpected type, `download_file_row`
returns normally, with one ledger value per cell computed by
`processCellOk`. -/
theorem download_file_row_ok (att : String → Nat → Option String)
    (baseDir rowName : String) (cells : List (String × Cell)) (maxRetries : Nat)
    (h : ∀ c ∈ cells, c.2.isOther = false) :
    download_file_row att baseDir rowName cells maxRetries =
      .ok (joinPath baseDir rowName,
        cells.map (fun c =>
          (c.1, processCellOk att (joinPath baseDir rowName) maxRetries c.2))) := by
  simp only [download_file_row, processCells_ok att _ _ cells h, bind, Except.bind,
    pure, Except.pure]

/-- If some cell in the list has an unexpected type, the cell loop raises
(returns an error). -/
theorem processCells_error (att : String → Nat → Option String) (rowDir : String)
    (maxRetries : Nat) (cells : List (String × Cell))
    (h : ∃ c ∈ cells, c.2.isOther = true) :
    ∃ e, processCells att rowDir maxRetries cells = .error e := by
  induction cells with
  | nil => simp at h
  | cons c cs ih =>
    rcases h with ⟨x, hx, hbad⟩
    rcases List.mem_cons.mp hx with hhead | htail
    · subst hhead
      cases hcell : x.2 with
      | other d =>
        exact ⟨"URL " ++ d ++ " of unexpected type.",
          by simp [processCells, processCell, hcell, bind, Except.bind]⟩
      | absent => simp [Cell.isOther, hcell] at hbad
      | single url => simp [Cell.isOther, hcell] at hbad
      | multiple urls => simp [Cell.isOther, hcell] at hbad
    · cases hcOther : c.2.isOther with
      | true =>
        cases hcell : c.2 with
        | other d =>
          exact ⟨"URL " ++ d ++ " of unexpected type.",
            by simp [processCells, processCell, hcell, bind, Except.bind]⟩
        | absent => simp [Cell.isOther, hcell] at hcOther
        | single url => simp [Cell.isOther, hcell] at hcOther
        | multiple urls => simp [Cell.isOther, hcell] at hcOther
      | false =>
        rcases ih ⟨x, htail, hbad⟩ with ⟨e, he⟩
        refine ⟨e, ?_⟩
        simp [processCells, processCell_ok att rowDir maxRetries c.2 hcOther, he,
          bind, Except.bind]

/-- The value computed for a non-`other` cell always matches its shape. -/
theorem processCellOk_shape (att : String → Nat → Option String) (rowDir : String)
    (maxRetries : Nat) (c : Cell) :
    shapeMatches c (processCellOk att rowDir maxRetries c) := by
  cases c with
  | absent => simp [processCellOk, shapeMatches]
  | single url =>
    simp only [processCellOk, shapeMatches]
    cases (download_file (att url) url (joinPath rowDir (basename url)) maxRetries).1 with
    | some p => right; exact ⟨basename url, rfl⟩
    | none => left; rfl
  | multiple urls =>
    simp only [processCellOk, shapeMatches]
    exact ⟨_, rfl, by simp⟩
  | other d => simp [shapeMatches]

/-! ### Claim C1 -/

/-- C1: for every catalog entry (a row of resource cells of the expected
kinds), the ledger entry returned by `download_file_row` has resource
values whose shape structurally matches the entry's resource slots —
an absent slot yields null, a single slot yields one local filename or
null, and a multiple slot yields an ordered list of the same length with
a filename or null in each position — regardless of which downloads the
network oracle makes fail. -/
theorem ledger_shape_matches_catalog (att : String → Nat → Option String)
    (baseDir rowName : String) (cells : List (String × Cell)) (maxRetries : Nat)
    (h : ∀ c ∈ cells, c.2.isOther = false) :
    ∃ rowDir entries,
      download_file_row att baseDir rowName cells maxRetries = .ok (rowDir, entries) ∧
      List.Forall₂ (fun c e => (e : String × LVal).1 = (c : String × Cell).1 ∧
        shapeMatches c.2 e.2) cells entries := by
  refine ⟨joinPath baseDir rowName, _, download_file_row_ok att baseDir rowName cells maxRetries h, ?_⟩
  rw [List.forall₂_map_right_iff]
  rw [List.forall₂_same]
  intro c _
  exact ⟨rfl, processCellOk_shape att (joinPath baseDir rowName) maxRetries c.2⟩

/-- A network oracle that fails every attempt on every URL. -/
def attFailW : String → Nat → Option String := fun _ _ => some "connection reset"

/-- A catalog row exercising all three expected cell kinds. -/
def cellsW : List (String × Cell) :=
  [("iLex", .single "http://host/a.ilex"),
   ("ELAN", .absent),
   ("OpenPose", .multiple ["http://host/p1.json", "http://host/p2.json"])]

/-- Witness for C1 at a concrete row and a concrete failing oracle. -/
theorem ledger_shape_matches_catalog_witness :
    ∃ rowDir entries,
      download_file_row attFailW "/data" "row0" cellsW 3 = .ok (rowDir, entries) ∧
      List.Forall₂ (fun c e => (e : String × LVal).1 = (c : String × Cell).1 ∧
        shapeMatches c.2 e.2) cellsW entries :=
  ledger_shape_matches_catalog attFailW "/data" "row0" cellsW 3 (by decide)

/-! ### Claim C2 -/

/-- C2: if the remote fetch raises a request exception on every one of the
`R ≥ 1` attempts of `download_file` for some URL, then `download_file`
resolves to `None`, a warning is emitted, and the row acquisition returns
normally (`Except.ok`) with a null ledger slot in that URL's position —
the network error is not raised to the caller. -/
theorem all_attempts_fail_null_slot (att : String → Nat → Option String)
    (url savePath baseDir rowName col : String) (cells : List (String × Cell))
    (maxRetries k : Nat) (hR : 1 ≤ maxRetries)
    (hfail : ∀ i, i < maxRetries → att url i ≠ none)
    (hcells : ∀ c ∈ cells, c.2.isOther = false)
    (hslot : cells[k]? = some (col, .single url)) :
    (download_file (att url) url savePath maxRetries).1 = none ∧
    (download_file (att url) url savePath maxRetries).2 ≠ [] ∧
    ∃ rowDir entries,
      download_file_row att baseDir rowName cells maxRetries = .ok (rowDir, entries) ∧
      entries[k]? = some (col, LVal.vnone) := by
  obtain ⟨h1, h2⟩ := download_file_all_fail (att url) url savePath maxRetries hR hfail
  refine ⟨h1, h2, joinPath baseDir rowName, _,
    download_file_row_ok att baseDir rowName cells maxRetries hcells, ?_⟩
  rw [List.getElem?_map, hslot]
  have hd := (download_file_all_fail (att url) url
    (joinPath (joinPath baseDir rowName) (basename url)) maxRetries hR hfail).1
  simp [processCellOk, hd]

/-- Witness for C2: a single-URL row whose three attempts all fail. -/
theorem all_attempts_fail_null_slot_witness :
    (download_file (attFailW "http://host/v.mp4") "http://host/v.mp4" "/data/row0/v.mp4" 3).1
        = none ∧
    (download_file (attFailW "http://host/v.mp4") "http://host/v.mp4" "/data/row0/v.mp4" 3).2
        ≠ [] ∧
    ∃ rowDir entries,
      download_file_row attFailW "/data" "row0" [("Video A", .single "http://host/v.mp4")] 3 =
        .ok (rowDir, entries) ∧
      entries[0]? = some ("Video A", LVal.vnone) :=
  all_attempts_fail_null_slot attFailW "http://host/v.mp4" "/data/row0/v.mp4" "/data" "row0"
    "Video A" [("Video A", .single "http://host/v.mp4")] 3 0 (by decide) (by decide)
    (by decide) (by decide)

/-! ### Claim C6 -/

/-- A network oracle on which every attempt succeeds. -/
def attOkW : String → Nat → Option String := fun _ _ => none

/-- A batch whose first entry holds a resource cell of unexpected type and
whose second entry is well-formed. -/
def rowsW : List (String × List (String × Cell)) :=
  [("row0", [("iLex", .other "3.14 of class float")]),
   ("row1", [("iLex", .absent)])]

/-- Counterexample to C6 as stated: at this concrete batch, the structural
`TypeError` raised while acquiring the first entry does not abort only
that entry — the whole batch application aborts with the error, and no
ledger entry is produced for the other (well-formed) entry. -/
theorem structural_error_aborts_batch_counterexample :
    download_data_rows attOkW "/data" 3 rowsW =
      .error "URL 3.14 of class float of unexpected type." ∧
    ledgerFor (download_data_rows attOkW "/data" 3 rowsW) "row1" = none := by
  constructor <;> rfl

/-- C6 as amended: for every catalog entry containing a resource cell of an
unexpected type, acquisition of that entry raises a fatal structural
error that is not caught and retried; the error propagates out of the
per-entry acquisition and aborts the entire batch application, so no
batch ledger is produced at all. -/
theorem structural_error_aborts_batch (att : String → Nat → Option String)
    (baseDir : String) (maxRetries : Nat)
    (rows : List (String × List (String × Cell)))
    (r : String × List (String × Cell)) (hr : r ∈ rows)
    (hbad : ∃ c ∈ r.2, c.2.isOther = true) :
    (∃ e, download_file_row att baseDir r.1 r.2 maxRetries = .error e) ∧
    (∃ e, download_data_rows att baseDir maxRetries rows = .error e) := by
  have hrow : ∀ (name : String) (cs : List (String × Cell)),
      (∃ c ∈ cs, c.2.isOther = true) →
      ∃ e, download_file_row att baseDir name cs maxRetries = .error e := by
    intro name cs hcs
    rcases processCells_error att (joinPath baseDir name) maxRetries cs hcs with ⟨e, he⟩
    exact ⟨e, by simp [download_file_row, he, bind, Except.bind]⟩
  refine ⟨hrow r.1 r.2 hbad, ?_⟩
  induction rows with
  | nil => simp at hr
  | cons x xs ih =>
    rcases List.mem_cons.mp hr with hhead | htail
    · subst hhead
      rcases hrow r.1 r.2 hbad with ⟨e, he⟩
      exact ⟨e, by simp [download_data_rows, he, bind, Except.bind]⟩
    · cases hx : download_file_row att baseDir x.1 x.2 maxRetries with
      | error e => exact ⟨e, by simp [download_data_rows, hx, bind, Except.bind]⟩
      | ok l =>
        rcases ih htail with ⟨e, he⟩
        exact ⟨e, by simp [download_data_rows, hx, he, bind, Except.bind]⟩

/-- Witness for the amended C6 at the concrete two-entry batch. -/
theorem structural_error_aborts_batch_witness :
    (∃ e, download_file_row attOkW "/data" "row0"
        [("iLex", Cell.other "3.14 of class float")] 3 = .error e) ∧
    (∃ e, download_data_rows attOkW "/data" 3 rowsW = .error e) :=
  structural_error_aborts_batch attOkW "/data" 3 rowsW
    ("row0", [("iLex", Cell.other "3.14 of class float")]) (by decide)
    (by decide)

/-! ### Duplicate-title disambiguation (claims C7 and C10)

`download_data` assigns the row identifiers with
`df['Transcript'] + '__' + df.groupby('Transcript').cumcount().astype(str)`:
every title is suffixed with `"__"` followed by the number of previous
rows carrying the same title. -/

/-- The identifier-assignment step, processing titles in input order;
`seen` accumulates the titles of the rows already processed, so
`seen.count t` is pandas' `groupby('Transcript').cumcount()` for the
current row. -/
def disambiguateAux (seen : List String) : List String → List String
  | [] => []
  | t :: ts => (t ++ "__" ++ toString (seen.count t)) :: disambiguateAux (t :: seen) ts

/-- Identifier assignment of `download_data` over the column of titles. -/
def disambiguateTitles (ts : List String) : List String := disambiguateAux [] ts

/-- Position-wise description of `disambiguateAux`. -/
theorem disambiguateAux_getElem (ts : List String) :
    ∀ (seen : List String) (i : Nat) (hi : i < ts.length),
      (disambiguateAux seen ts)[i]? =
        some (ts[i] ++ "__" ++ toString (seen.count ts[i] + (ts.take i).count ts[i])) := by
  induction ts with
  | nil => intro seen i hi; simp at hi
  | cons t ts ih =>
    intro seen i hi
    cases i with
    | zero => simp [disambiguateAux]
    | succ n =>
      have hn : n < ts.length := by simpa using hi
      have := ih (t :: seen) n hn
      simp only [disambiguateAux, List.getElem?_cons_succ, this, List.getElem_cons_succ,
        List.take_succ_cons, List.count_cons]
      congr 3
      by_cases ht : t == ts[n] <;> simp [ht] <;> omega

/-- Position-wise description of `disambiguateTitles`. -/
theorem disambiguateTitles_getElem (ts : List String) (i : Nat) (hi : i < ts.length) :
    (disambiguateTitles ts)[i]? =
      some (ts[i] ++ "__" ++ toString ((ts.take i).count ts[i])) := by
  simpa using disambiguateAux_getElem ts [] i hi

/-! ### Claim C7 -/

/-- C7: in every input catalog in which exactly two rows carry the same
title `X`, the identifier-assignment step gives those rows, in their
original input order, the identifiers `X__0` and `X__1`. -/
theorem duplicate_titles_disambiguated (ts : List String) (X : String) (i j : Nat)
    (hi : i < ts.length) (hj : j < ts.length) (hij : i < j)
    (hXi : ts[i] = X) (hXj : ts[j] = X) (hcount : ts.count X = 2) :
    (disambiguateTitles ts)[i]? = some (X ++ "__0") ∧
    (disambiguateTitles ts)[j]? = some (X ++ "__1") := by
  -- count of X in the prefix before j is exactly 1, and before i exactly 0
  have hsplit : (ts.take j).count X + (ts.drop j).count X = ts.count X := by
    rw [← List.count_append, List.take_append_drop]
  have hdropj : (ts.drop j) = ts[j] :: ts.drop (j + 1) := List.drop_eq_getElem_cons hj
  have hdropj_pos : 1 ≤ (ts.drop j).count X := by
    rw [hdropj, hXj]
    simp [List.count_cons]
  have hlen_takej : i < (ts.take j).length := by
    simp [List.length_take]
    omega
  have htakej_geti : (ts.take j)[i] = ts[i] := List.getElem_take ts
  have hmem : X ∈ ts.take j := by
    rw [← hXi, ← htakej_geti]
    exact List.getElem_mem hlen_takej
  have htakej_pos : 1 ≤ (ts.take j).count X := List.count_pos_iff.mpr hmem
  have htakej_le : (ts.take j).count X ≤ 1 := by omega
  have htakej : (ts.take j).count X = 1 := le_antisymm htakej_le htakej_pos
  -- the prefix before i contains no X
  have hsplit2 : (ts.take i).count X + ((ts.take j).drop i).count X = (ts.take j).count X := by
    rw [← List.count_append]
    have : (ts.take j).take i = ts.take i := by
      rw [List.take_take]
      congr 1
      omega
    rw [← this, List.take_append_drop]
  have hdropi : ((ts.take j).drop i) = (ts.take j)[i] :: (ts.take j).drop (i + 1) :=
    List.drop_eq_getElem_cons hlen_takej
  have hdropi_pos : 1 ≤ ((ts.take j).drop i).count X := by
    rw [hdropi, htakej_geti, hXi]
    simp [List.count_cons]
  have htakei : (ts.take i).count X = 0 := by omega
  constructor
  · rw [disambiguateTitles_getElem ts i hi, hXi, htakei, String.append_assoc]
    rfl
  · rw [disambiguateTitles_getElem ts j hj, hXj, htakej, String.append_assoc]
    rfl

/-- Witness for C7 at a concrete catalog with a duplicated title. -/
theorem duplicate_titles_disambiguated_witness :
    (disambiguateTitles ["X", "Y", "X"])[0]? = some ("X" ++ "__0") ∧
    (disambiguateTitles ["X", "Y", "X"])[2]? = some ("X" ++ "__1") :=
  duplicate_titles_disambiguated ["X", "Y", "X"] "X" 0 2 (by decide) (by decide)
    (by decide) (by decide) (by decide) (by decide)

/-! ### Claim C10 -/

/-- C10: every catalog row is assigned the identifier formed from its
title, `"__"`, and the zero-based count of preceding rows bearing the
same title; in particular a title occurring exactly once in the catalog
still receives the suffix `"__0"` and never keeps its unsuffixed name. -/
theorem identifier_always_suffixed (ts : List String) (i : Nat) (hi : i < ts.length) :
    (disambiguateTitles ts)[i]? =
      some (ts[i] ++ "__" ++ toString ((ts.take i).count ts[i])) ∧
    (ts.count ts[i] = 1 →
      (disambiguateTitles ts)[i]? = some (ts[i] ++ "__0") ∧
      (disambiguateTitles ts)[i]? ≠ some ts[i]) := by
  refine ⟨disambiguateTitles_getElem ts i hi, fun huniq => ?_⟩
  have hsplit : (ts.take i).count (ts[i]) + (ts.drop i).count (ts[i]) = ts.count (ts[i]) := by
    rw [← List.count_append, List.take_append_drop]
  have hdrop : (ts.drop i) = ts[i] :: ts.drop (i + 1) := List.drop_eq_getElem_cons hi
  have hdrop_pos : 1 ≤ (ts.drop i).count (ts[i]) := by
    rw [hdrop, List.count_cons_self]
    omega
  have htake : (ts.take i).count (ts[i]) = 0 := by omega
  have hzero : (disambiguateTitles ts)[i]? = some (ts[i] ++ "__0") := by
    rw [disambiguateTitles_getElem ts i hi, htake, String.append_assoc]
    rfl
  refine ⟨hzero, ?_⟩
  rw [hzero]
  intro hcontr
  have heq : ts[i] ++ "__0" = ts[i] := Option.some.inj hcontr
  have hlen : (ts[i] ++ "__0").length = ts[i].length := by rw [heq]
  rw [String.length_append] at hlen
  have : ("__0" : String).length = 3 := by decide
  omega

/-- Witness for C10 at a concrete catalog with a unique title. -/
theorem identifier_always_suffixed_witness :
    (disambiguateTitles ["A", "B"])[0]? =
      some ("A" ++ "__" ++ toString (((["A", "B"] : List String).take 0).count "A")) ∧
    ((["A", "B"] : List String).count "A" = 1 →
      (disambiguateTitles ["A", "B"])[0]? = some ("A" ++ "__0") ∧
      (disambiguateTitles ["A", "B"])[0]? ≠ some "A") :=
  identifier_always_suffixed ["A", "B"] 0 (by decide)

/-! ### Metadata extraction (claims C4 and C5)

`extract_metadata` iterates the fixed role set
`['Video A', 'Video B', 'Video Total', 'Video AB']`; for a role whose
ledger path is `NaN` it records a null duration and `(None, None)`
dimensions; otherwise it calls `get_video_metadata` (an `ffmpeg.probe`
wrapper) and, when the probe fails, records nothing for that role (the
role's columns are simply absent from the returned series, which reads
back as null). -/

/-- Outcome of `ffmpeg.probe` on a local path: a decodable video stream
with its fields, a probe that succeeds but contains no video stream, or
a raised exception (unreadable file, decode failure, missing field). -/
inductive ProbeOutcome
  | ok (duration : ℚ) (width height : ℕ)
  | noVideoStream
  | err (msg : String)
  deriving DecidableEq, Repr

/-- `get_video_metadata(file_path)`: duration and dimensions of the video,
or `none` when there is no video stream or any exception occurs; the
exception message is printed (second component). -/
def get_video_metadata (probe : String → ProbeOutcome) (filePath : String) :
    Option (ℚ × (ℕ × ℕ)) × List String :=
  match probe filePath with
  | .ok d w h => (some (d, (w, h)), [])
  | .noVideoStream => (none, [])
  | .err e => (none, ["Error getting metadata for " ++ filePath ++ ": " ++ e])

/-- The fixed role set of `extract_metadata`. -/
def video_types : List String := ["Video A", "Video B", "Video Total", "Video AB"]

/-- A metadata cell: a duration value or a dimensions value, each possibly
null. -/
inductive MVal
  | dur (d : Option ℚ)
  | dims (w h : Option ℕ)
  deriving DecidableEq, Repr

/-- Result of metadata extraction for one row: the `("Metadata", key)`
entries in order, the paths handed to the prober, and the printed error
messages. -/
structure MetaOut where
  entries : List (String × MVal)
  probed : List String
  logs : List String
  deriving DecidableEq, Repr

/-- The body of the `for video_type in video_types` loop of
`extract_metadata`, for one role: a null ledger path yields the entries
`(Duration, None)` and `(Dimensions, (None, None))` without probing;
otherwise the path is probed and, if the probe returns `None`, no entry
is recorded for the role. -/
def roleEntries (probe : String → ProbeOutcome) (baseDir : String)
    (slot : Option String) (vt : String) : MetaOut :=
  match slot with
  | none =>
    { entries := [(vt ++ " Duration", .dur none), (vt ++ " Dimensions", .dims none none)],
      probed := [], logs := [] }
  | some f =>
    let p := joinPath baseDir f
    let r := get_video_metadata probe p
    match r.1 with
    | some (d, (w, h)) =>
      { entries := [(vt ++ " Duration", .dur (some d)),
                    (vt ++ " Dimensions", .dims (some w) (some h))],
        probed := [p], logs := r.2 }
    | none => { entries := [], probed := [p], logs := r.2 }

/-- `extract_metadata(row)`: processes the four roles in order; `row` maps
a role name to its ledger path (`none` for `NaN`). -/
def extract_metadata (probe : String → ProbeOutcome) (baseDir : String)
    (row : String → Option String) : MetaOut :=
  video_types.foldr
    (fun vt acc =>
      let e := roleEntries probe baseDir (row vt) vt
      { entries := e.entries ++ acc.entries,
        probed := e.probed ++ acc.probed,
        logs := e.logs ++ acc.logs })
    { entries := [], probed := [], logs := [] }

/-- Value recorded in a metadata entry list under a given key, `none` when
the key is absent. -/
def lookupMVal (es : List (String × MVal)) (k : String) : Option MVal :=
  (es.find? (fun e => e.1 = k)).map Prod.snd

/-- The keys of a role's entries always carry the role's name as prefix,
so looking up another role's key in them fails. -/
theorem roleEntries_find_other (probe : String → ProbeOutcome) (baseDir : String)
    (slot : Option String) (vt k : String)
    (h1 : k ≠ vt ++ " Duration") (h2 : k ≠ vt ++ " Dimensions") :
    (roleEntries probe baseDir slot vt).entries.find? (fun e => e.1 = k) = none := by
  cases slot with
  | none =>
    simp [roleEntries, List.find?, h1.symm, h2.symm]
  | some f =>
    simp only [roleEntries]
    cases hp : (get_video_metadata probe (joinPath baseDir f)).1 with
    | none => simp
    | some m =>
      rcases m with ⟨d, w, h⟩
      simp [List.find?, h1.symm, h2.symm]

/-- Decomposition of `extract_metadata` into its four per-role outputs. -/
theorem extract_metadata_eq (probe : String → ProbeOutcome) (baseDir : String)
    (row : String → Option String) :
    extract_metadata probe baseDir row =
      { entries := (roleEntries probe baseDir (row "Video A") "Video A").entries ++
          (roleEntries probe baseDir (row "Video B") "Video B").entries ++
          (roleEntries probe baseDir (row "Video Total") "Video Total").entries ++
          (roleEntries probe baseDir (row "Video AB") "Video AB").entries,
        probed := (roleEntries probe baseDir (row "Video A") "Video A").probed ++
          (roleEntries probe baseDir (row "Video B") "Video B").probed ++
          (roleEntries probe baseDir (row "Video Total") "Video Total").probed ++
          (roleEntries probe baseDir (row "Video AB") "Video AB").probed,
        logs := (roleEntries probe baseDir (row "Video A") "Video A").logs ++
          (roleEntries probe baseDir (row "Video B") "Video B").logs ++
          (roleEntries probe baseDir (row "Video Total") "Video Total").logs ++
          (roleEntries probe baseDir (row "Video AB") "Video AB").logs } := by
  simp [extract_metadata, video_types, List.foldr]

/-- For a null slot no path is probed; for a non-null slot exactly the
joined path is probed, whatever the probe's outcome. -/
theorem roleEntries_probed (probe : String → ProbeOutcome) (baseDir : String)
    (slot : Option String) (vt : String) :
    (roleEntries probe baseDir slot vt).probed =
      (slot.map (fun f => [joinPath baseDir f])).getD [] := by
  cases slot with
  | none => rfl
  | some f =>
    simp only [roleEntries]
    cases hp : (get_video_metadata probe (joinPath baseDir f)).1 with
    | none => rfl
    | some m =>
      rcases m with ⟨d, w, h⟩
      rfl

/-- The probed paths of a finished extraction are exactly the joined paths
of the roles with a non-null ledger slot, in role order: a null slot
never reaches the prober and a failed probe does not stop the remaining
roles from being probed. -/
theorem extract_metadata_probed (probe : String → ProbeOutcome) (baseDir : String)
    (row : String → Option String) :
    (extract_metadata probe baseDir row).probed =
      video_types.filterMap (fun vt => (row vt).map (joinPath baseDir)) := by
  rw [extract_metadata_eq]
  simp only [video_types, List.filterMap_cons, List.filterMap_nil, roleEntries_probed]
  cases row "Video A" <;> cases row "Video B" <;>
    cases row "Video Total" <;> cases row "Video AB" <;> simp

/-- Appending a string on the left is injective. -/
theorem string_append_left_cancel {a b c : String} (h : a ++ b = a ++ c) : b = c := by
  have hd : (a ++ b).data = (a ++ c).data := by rw [h]
  rw [String.data_append, String.data_append] at hd
  exact String.ext (List.append_cancel_left hd)

/-- On a null ledger slot the role's Duration entry is recorded as null. -/
theorem roleEntries_null_dur (probe : String → ProbeOutcome) (baseDir vt : String) :
    lookupMVal (roleEntries probe baseDir none vt).entries (vt ++ " Duration") =
      some (.dur none) := by
  simp [roleEntries, lookupMVal]

/-- On a null ledger slot the role's Dimensions entry is recorded as
`(None, None)`. -/
theorem roleEntries_null_dims (probe : String → ProbeOutcome) (baseDir vt : String) :
    lookupMVal (roleEntries probe baseDir none vt).entries (vt ++ " Dimensions") =
      some (.dims none none) := by
  have hne : ¬ (vt ++ " Duration" = vt ++ " Dimensions") := fun h =>
    absurd (string_append_left_cancel h) (by decide)
  simp [roleEntries, lookupMVal, hne]

/-- The pairwise role keys of the fixed role set are all distinct. -/
theorem videoKeys_distinct : ∀ v1 ∈ video_types, ∀ v2 ∈ video_types, v2 ≠ v1 →
    (v1 ++ " Duration" ≠ v2 ++ " Duration" ∧ v1 ++ " Duration" ≠ v2 ++ " Dimensions" ∧
     v1 ++ " Dimensions" ≠ v2 ++ " Duration" ∧ v1 ++ " Dimensions" ≠ v2 ++ " Dimensions") := by
  decide

/-- Looking up one role's key in the full extraction output reads exactly
that role's entries: the other three roles cannot provide the key. -/
theorem extract_lookup_role (probe : String → ProbeOutcome) (baseDir : String)
    (row : String → Option String) (vt k : String) (hvt : vt ∈ video_types)
    (hothers : ∀ v2 ∈ video_types, v2 ≠ vt →
      k ≠ v2 ++ " Duration" ∧ k ≠ v2 ++ " Dimensions") :
    lookupMVal (extract_metadata probe baseDir row).entries k =
      lookupMVal (roleEntries probe baseDir (row vt) vt).entries k := by
  simp only [video_types, List.mem_cons, List.not_mem_nil, or_false] at hvt
  have hA := hothers "Video A" (by simp [video_types])
  have hB := hothers "Video B" (by simp [video_types])
  have hT := hothers "Video Total" (by simp [video_types])
  have hAB := hothers "Video AB" (by simp [video_types])
  rcases hvt with rfl | rfl | rfl | rfl
  · rw [extract_metadata_eq]
    simp only [lookupMVal, List.find?_append,
      roleEntries_find_other probe baseDir (row "Video B") "Video B" k
        (hB (by decide)).1 (hB (by decide)).2,
      roleEntries_find_other probe baseDir (row "Video Total") "Video Total" k
        (hT (by decide)).1 (hT (by decide)).2,
      roleEntries_find_other probe baseDir (row "Video AB") "Video AB" k
        (hAB (by decide)).1 (hAB (by decide)).2,
      Option.or_none, Option.none_or]
  · rw [extract_metadata_eq]
    simp only [lookupMVal, List.find?_append,
      roleEntries_find_other probe baseDir (row "Video A") "Video A" k
        (hA (by decide)).1 (hA (by decide)).2,
      roleEntries_find_other probe baseDir (row "Video Total") "Video Total" k
        (hT (by decide)).1 (hT (by decide)).2,
      roleEntries_find_other probe baseDir (row "Video AB") "Video AB" k
        (hAB (by decide)).1 (hAB (by decide)).2,
      Option.or_none, Option.none_or]
  · rw [extract_metadata_eq]
    simp only [lookupMVal, List.find?_append,
      roleEntries_find_other probe baseDir (row "Video A") "Video A" k
        (hA (by decide)).1 (hA (by decide)).2,
      roleEntries_find_other probe baseDir (row "Video B") "Video B" k
        (hB (by decide)).1 (hB (by decide)).2,
      roleEntries_find_other probe baseDir (row "Video AB") "Video AB" k
        (hAB (by decide)).1 (hAB (by decide)).2,
      Option.or_none, Option.none_or]
  · rw [extract_metadata_eq]
    simp only [lookupMVal, List.find?_append,
      roleEntries_find_other probe baseDir (row "Video A") "Video A" k
        (hA (by decide)).1 (hA (by decide)).2,
      roleEntries_find_other probe baseDir (row "Video B") "Video B" k
        (hB (by decide)).1 (hB (by decide)).2,
      roleEntries_find_other probe baseDir (row "Video Total") "Video Total" k
        (hT (by decide)).1 (hT (by decide)).2,
      Option.or_none, Option.none_or]

/-- When the probe of a non-null slot fails, the role records no entry. -/
theorem roleEntries_entries_fail (probe : String → ProbeOutcome) (baseDir f vt : String)
    (hfail : (get_video_metadata probe (joinPath baseDir f)).1 = none) :
    (roleEntries probe baseDir (some f) vt).entries = [] := by
  simp [roleEntries, hfail]

/-- When the probe of a non-null slot raises, the role's log holds the
printed error message. -/
theorem roleEntries_logs_err (probe : String → ProbeOutcome) (baseDir f vt e : String)
    (he : probe (joinPath baseDir f) = .err e) :
    (roleEntries probe baseDir (some f) vt).logs =
      ["Error getting metadata for " ++ joinPath baseDir f ++ ": " ++ e] := by
  simp [roleEntries, get_video_metadata, he]

/-! ### Claim C4 -/

/-- C4: for every ledger row and every role of the fixed role set, if the
ledger path for the role is null then `extract_metadata` records a null
Duration and `(None, None)` Dimensions for the role, and the prober is
not invoked for it: the probed paths are exactly those of the roles with
non-null slots. -/
theorem null_slot_null_metadata (probe : String → ProbeOutcome) (baseDir : String)
    (row : String → Option String) (vt : String)
    (hvt : vt ∈ video_types) (hnull : row vt = none) :
    lookupMVal (extract_metadata probe baseDir row).entries (vt ++ " Duration") =
      some (.dur none) ∧
    lookupMVal (extract_metadata probe baseDir row).entries (vt ++ " Dimensions") =
      some (.dims none none) ∧
    (extract_metadata probe baseDir row).probed =
      video_types.filterMap (fun t => (row t).map (joinPath baseDir)) := by
  have hdur := extract_lookup_role probe baseDir row vt (vt ++ " Duration") hvt
    (fun v2 hv2 hne => ⟨(videoKeys_distinct vt hvt v2 hv2 hne).1,
      (videoKeys_distinct vt hvt v2 hv2 hne).2.1⟩)
  have hdims := extract_lookup_role probe baseDir row vt (vt ++ " Dimensions") hvt
    (fun v2 hv2 hne => ⟨(videoKeys_distinct vt hvt v2 hv2 hne).2.2.1,
      (videoKeys_distinct vt hvt v2 hv2 hne).2.2.2⟩)
  rw [hnull] at hdur hdims
  exact ⟨hdur.trans (roleEntries_null_dur probe baseDir vt),
    hdims.trans (roleEntries_null_dims probe baseDir vt),
    extract_metadata_probed probe baseDir row⟩

/-- A ledger row with a null slot for role `Video B` and a non-null slot
for `Video Total`. -/
def rowMetaW : String → Option String :=
  fun vt => if vt = "Video Total" then some "total.mp4" else none

/-- A prober that succeeds on every path. -/
def probeOkW : String → ProbeOutcome := fun _ => .ok 10 1280 720

/-- Witness for C4: the null `Video B` slot yields null metadata and the
prober only sees the one non-null slot's path. -/
theorem null_slot_null_metadata_witness :
    lookupMVal (extract_metadata probeOkW "/data/row0" rowMetaW).entries
        ("Video B" ++ " Duration") = some (.dur none) ∧
    lookupMVal (extract_metadata probeOkW "/data/row0" rowMetaW).entries
        ("Video B" ++ " Dimensions") = some (.dims none none) ∧
    (extract_metadata probeOkW "/data/row0" rowMetaW).probed =
      video_types.filterMap (fun t => (rowMetaW t).map (joinPath "/data/row0")) :=
  null_slot_null_metadata probeOkW "/data/row0" rowMetaW "Video B" (by decide) (by decide)

/-! ### Claim C5 -/

/-- A prober that reports no video stream on every path. -/
def probeNoStreamW : String → ProbeOutcome := fun _ => .noVideoStream

/-- Counterexample to C5 as stated: at this concrete row the probing of the
non-null `Video Total` slot fails (no video stream), yet nothing is
logged — `get_video_metadata` only prints on a raised exception, and a
probe succeeding with no video stream returns `None` silently. -/
theorem probe_failure_logging_counterexample :
    rowMetaW "Video Total" = some "total.mp4" ∧
    probeNoStreamW (joinPath "/data/row0" "total.mp4") = .noVideoStream ∧
    (get_video_metadata probeNoStreamW (joinPath "/data/row0" "total.mp4")).1 = none ∧
    (extract_metadata probeNoStreamW "/data/row0" rowMetaW).logs = [] := by
  decide

/-- C5 as amended: for every ledger row with a non-null path whose probing
fails, the role's metadata keys are absent from the produced record (so
its duration and dimensions read as null); when the probe raised an
exception the error message is logged, while a missing video stream
yields null silently; and extraction continues — the probed paths are
exactly those of all the non-null slots, this failure included. -/
theorem probe_failure_null_metadata (probe : String → ProbeOutcome) (baseDir : String)
    (row : String → Option String) (vt f : String)
    (hvt : vt ∈ video_types) (hslot : row vt = some f)
    (hfail : (get_video_metadata probe (joinPath baseDir f)).1 = none) :
    lookupMVal (extract_metadata probe baseDir row).entries (vt ++ " Duration") = none ∧
    lookupMVal (extract_metadata probe baseDir row).entries (vt ++ " Dimensions") = none ∧
    (∀ e, probe (joinPath baseDir f) = .err e →
      ("Error getting metadata for " ++ joinPath baseDir f ++ ": " ++ e) ∈
        (extract_metadata probe baseDir row).logs) ∧
    (extract_metadata probe baseDir row).probed =
      video_types.filterMap (fun t => (row t).map (joinPath baseDir)) := by
  have hdur := extract_lookup_role probe baseDir row vt (vt ++ " Duration") hvt
    (fun v2 hv2 hne => ⟨(videoKeys_distinct vt hvt v2 hv2 hne).1,
      (videoKeys_distinct vt hvt v2 hv2 hne).2.1⟩)
  have hdims := extract_lookup_role probe baseDir row vt (vt ++ " Dimensions") hvt
    (fun v2 hv2 hne => ⟨(videoKeys_distinct vt hvt v2 hv2 hne).2.2.1,
      (videoKeys_distinct vt hvt v2 hv2 hne).2.2.2⟩)
  rw [hslot, roleEntries_entries_fail probe baseDir f vt hfail] at hdur hdims
  refine ⟨by simpa [lookupMVal] using hdur, by simpa [lookupMVal] using hdims, ?_,
    extract_metadata_probed probe baseDir row⟩
  intro e he
  have hlogs := roleEntries_logs_err probe baseDir f vt e he
  simp only [video_types, List.mem_cons, List.not_mem_nil, or_false] at hvt
  rcases hvt with rfl | rfl | rfl | rfl <;>
    rw [extract_metadata_eq] <;>
    simp [hslot, hlogs, List.mem_append]

/-- A prober that raises a decode exception on every path. -/
def probeErrW : String → ProbeOutcome := fun _ => .err "moov atom not found"

/-- Witness for the amended C5 at a concrete row whose non-null slot's
probe raises. -/
theorem probe_failure_null_metadata_witness :
    lookupMVal (extract_metadata probeErrW "/data/row0" rowMetaW).entries
        ("Video Total" ++ " Duration") = none ∧
    lookupMVal (extract_metadata probeErrW "/data/row0" rowMetaW).entries
        ("Video Total" ++ " Dimensions") = none ∧
    (∀ e, probeErrW (joinPath "/data/row0" "total.mp4") = .err e →
      ("Error getting metadata for " ++ joinPath "/data/row0" "total.mp4" ++ ": " ++ e) ∈
        (extract_metadata probeErrW "/data/row0" rowMetaW).logs) ∧
    (extract_metadata probeErrW "/data/row0" rowMetaW).probed =
      video_types.filterMap (fun t => (rowMetaW t).map (joinPath "/data/row0")) :=
  probe_failure_null_metadata probeErrW "/data/row0" rowMetaW "Video Total" "total.mp4"
    (by decide) (by decide) (by decide)

/-! ### Decimal rendering of numbers

Python's `str`/format rendering of non-negative integers, built from an
explicit fuel-based digit extraction so that every definition reduces in
the kernel. -/

/-- Little-endian base-10 digits of `n`, with explicit fuel (`fuel ≥ n`
always suffices). -/
def natDigitsAux : Nat → Nat → List Nat
  | 0, _ => []
  | fuel + 1, n => if n = 0 then [] else n % 10 :: natDigitsAux fuel (n / 10)

/-- Little-endian base-10 digits of `n` (empty for `n = 0`). -/
def natDigits (n : Nat) : List Nat := natDigitsAux n n

/-- Value of a little-endian digit list. -/
def digitsVal : List Nat → Nat
  | [] => 0
  | d :: ds => d + 10 * digitsVal ds

/-- The character of a decimal digit. -/
def digitChar (d : Nat) : Char := Char.ofNat (d + 48)

/-- Decimal characters of `n`, most significant first. -/
def natChars (n : Nat) : List Char := (natDigits n).reverse.map digitChar

/-- Python `str(n)` for a non-negative integer. -/
def natStr (n : Nat) : String := if n = 0 then "0" else String.mk (natChars n)

/-- Python `str(z)` for an integer. -/
def intStr (z : Int) : String := if z < 0 then "-" ++ natStr z.natAbs else natStr z.natAbs

theorem natDigitsAux_zero (fuel : Nat) : natDigitsAux fuel 0 = [] := by
  cases fuel <;> simp [natDigitsAux]

theorem natDigitsAux_congr : ∀ f1 f2 n, n ≤ f1 → n ≤ f2 →
    natDigitsAux f1 n = natDigitsAux f2 n := by
  intro f1
  induction f1 with
  | zero =>
    intro f2 n h1 _
    have : n = 0 := Nat.le_zero.mp h1
    subst this
    rw [natDigitsAux_zero, natDigitsAux_zero]
  | succ f1 ih =>
    intro f2 n h1 h2
    by_cases hn : n = 0
    · subst hn; rw [natDigitsAux_zero, natDigitsAux_zero]
    · obtain ⟨f2p, rfl⟩ : ∃ k, f2 = k + 1 := by
        cases f2 with
        | zero => exact absurd (Nat.le_zero.mp h2) hn
        | succ k => exact ⟨k, rfl⟩
      simp only [natDigitsAux, hn, if_false]
      have hlt : n / 10 < n := Nat.div_lt_self (Nat.pos_of_ne_zero hn) (by omega)
      exact congrArg _ (ih f2p (n / 10) (by omega) (by omega))

theorem natDigitsAux_val : ∀ fuel n, n ≤ fuel → digitsVal (natDigitsAux fuel n) = n := by
  intro fuel
  induction fuel with
  | zero => intro n h; simp [Nat.le_zero.mp h, natDigitsAux, digitsVal]
  | succ f ih =>
    intro n h
    by_cases hn : n = 0
    · simp [hn, natDigitsAux, digitsVal]
    · simp only [natDigitsAux, hn, if_false, digitsVal]
      have hlt : n / 10 < n := Nat.div_lt_self (Nat.pos_of_ne_zero hn) (by omega)
      rw [ih (n / 10) (by omega)]
      omega

theorem natDigits_val (n : Nat) : digitsVal (natDigits n) = n :=
  natDigitsAux_val n n le_rfl

theorem natDigitsAux_lt10 : ∀ fuel n d, d ∈ natDigitsAux fuel n → d < 10 := by
  intro fuel
  induction fuel with
  | zero => intro n d h; simp [natDigitsAux] at h
  | succ f ih =>
    intro n d h
    by_cases hn : n = 0
    · simp [hn, natDigitsAux] at h
    · simp only [natDigitsAux, hn, if_false, List.mem_cons] at h
      rcases h with rfl | h
      · omega
      · exact ih _ d h

theorem natDigits_small (m : Nat) (h0 : 0 < m) (h : m < 10) : natDigits m = [m] := by
  obtain ⟨k, rfl⟩ : ∃ k, m = k + 1 := ⟨m - 1, by omega⟩
  simp only [natDigits, natDigitsAux, Nat.succ_ne_zero, if_false]
  rw [Nat.mod_eq_of_lt h, Nat.div_eq_of_lt h, natDigitsAux_zero]

theorem natDigits_two (m : Nat) (h10 : 10 ≤ m) (h : m < 100) :
    natDigits m = [m % 10, m / 10] := by
  obtain ⟨k, rfl⟩ : ∃ k, m = k + 1 := ⟨m - 1, by omega⟩
  simp only [natDigits, natDigitsAux, Nat.succ_ne_zero, if_false]
  have hq0 : 0 < (k + 1) / 10 := by omega
  have hq : (k + 1) / 10 < 10 := by omega
  rw [natDigitsAux_congr k ((k + 1) / 10) ((k + 1) / 10) (by omega) le_rfl]
  rw [show natDigitsAux ((k + 1) / 10) ((k + 1) / 10) = natDigits ((k + 1) / 10) from rfl,
    natDigits_small _ hq0 hq]

theorem natStr_length_small (m : Nat) (h : m < 10) : (natStr m).length = 1 := by
  by_cases h0 : m = 0
  · subst h0; decide
  · simp only [natStr, h0, if_false]
    show (natChars m).length = 1
    rw [natChars, natDigits_small m (Nat.pos_of_ne_zero h0) h]
    rfl

theorem natStr_length_two (m : Nat) (h10 : 10 ≤ m) (h : m < 100) : (natStr m).length = 2 := by
  simp only [natStr, show m ≠ 0 by omega, if_false]
  show (natChars m).length = 2
  rw [natChars, natDigits_two m h10 h]
  rfl

/-! ### `seconds_to_hms` (claim C8) -/

/-- Python `%` (modulo) on numbers, for the positive divisors used here. -/
def pymod (a b : ℚ) : ℚ := a - b * ⌊a / b⌋

/-- Python's `", ".join`. -/
def joinSegs : List String → String
  | [] => ""
  | [x] => x
  | x :: xs => x ++ ", " ++ joinSegs xs

/-- Two-character rendering of a fraction-of-a-unit value below 100. -/
def pad2 (m : Nat) : String := if m < 10 then "0" ++ natStr m else natStr m

/-- Rounding to the nearest integer, ties to even — the rounding of
Python's float formatting. -/
def roundHalfEven (x : ℚ) : ℤ :=
  if x - ⌊x⌋ < 1/2 then ⌊x⌋
  else if 1/2 < x - ⌊x⌋ then ⌊x⌋ + 1
  else if ⌊x⌋ % 2 = 0 then ⌊x⌋ else ⌊x⌋ + 1

/-- Python's `f"{q:.2f}"`: the value rounded to two decimal places, with
the fractional part always two characters wide. -/
def fmt2 (q : ℚ) : String :=
  (if roundHalfEven (q * 100) < 0 then "-" else "") ++
    natStr ((roundHalfEven (q * 100)).natAbs / 100) ++ "." ++
    pad2 ((roundHalfEven (q * 100)).natAbs % 100)

/-- `seconds_to_hms(seconds)`: hours and minutes segments are emitted only
when positive; seconds always, with two decimal places.  `hours` is
`int(s // 3600)`, `minutes` is `int((s % 3600) // 60)` and the displayed
seconds are `s % 60`. -/
def seconds_to_hms (s : ℚ) : String :=
  joinSegs ((if 0 < ⌊s / 3600⌋ then [intStr ⌊s / 3600⌋ ++ " hours"] else []) ++
            (if 0 < ⌊pymod s 3600 / 60⌋ then [intStr ⌊pymod s 3600 / 60⌋ ++ " minutes"] else []) ++
            [fmt2 (pymod s 60) ++ " seconds"])

theorem pad2_length (m : Nat) (h : m < 100) : (pad2 m).length = 2 := by
  by_cases h10 : m < 10
  · simp only [pad2, h10, if_true, String.length_append, natStr_length_small m h10]
    decide
  · simp only [pad2, h10, if_false]
    exact natStr_length_two m (by omega) h

theorem joinSegs_concat : ∀ (xs : List String) (x : String),
    ∃ pre, joinSegs (xs ++ [x]) = pre ++ x := by
  intro xs
  induction xs with
  | nil =>
    intro x
    refine ⟨"", ?_⟩
    show x = "" ++ x
    rfl
  | cons y ys ih =>
    intro x
    rcases ih x with ⟨p, hp⟩
    cases ys with
    | nil => exact ⟨y ++ ", ", rfl⟩
    | cons z zs =>
      refine ⟨(y ++ ", ") ++ p, ?_⟩
      show (y ++ ", ") ++ joinSegs ((z :: zs) ++ [x]) = ((y ++ ", ") ++ p) ++ x
      rw [hp]
      simp [String.append_assoc]

theorem floor_div_eq_zero {s b : ℚ} (hb : 0 < b) (h0 : 0 ≤ s) (h : s < b) : ⌊s / b⌋ = 0 :=
  Int.floor_eq_zero_iff.mpr ⟨div_nonneg h0 hb.le, (div_lt_one hb).mpr h⟩

theorem pymod_eq_self {s b : ℚ} (h : ⌊s / b⌋ = 0) : pymod s b = s := by
  simp [pymod, h]

theorem floor_div_pos {s b : ℚ} (hb : 0 < b) (h : b ≤ s) : 0 < ⌊s / b⌋ := by
  have h1 : (1:ℚ) ≤ s / b := (one_le_div hb).mpr h
  have h2 : (1:ℤ) ≤ ⌊s / b⌋ := Int.le_floor.mpr (by push_cast; exact h1)
  omega

theorem roundHalfEven_intCast (z : ℤ) : roundHalfEven ((z : ℚ)) = z := by
  unfold roundHalfEven
  rw [Int.floor_intCast]
  norm_num

/-! ### Claim C8 -/

/-- C8: `seconds_to_hms` renders 3661.0 as `"1 hours, 1 minutes, 1.00
seconds"` and 45.5 as `"45.50 seconds"`; in general, for a non-negative
number of seconds, the hours segment is omitted exactly when the hour
count is zero, the minutes segment is omitted when the minute count is
zero — also when the hour count is positive, where the output is fully
determined in both minute cases (7200.0 renders as `"2 hours, 0.00
seconds"`, with no minutes segment) — and the trailing seconds segment
always carries exactly two decimal places. -/
theorem seconds_to_hms_spec :
    seconds_to_hms 3661 = "1 hours, 1 minutes, 1.00 seconds" ∧
    seconds_to_hms ((91:ℚ)/2) = "45.50 seconds" ∧
    seconds_to_hms 7200 = "2 hours, 0.00 seconds" ∧
    (∀ s : ℚ, 0 ≤ s → s < 60 → seconds_to_hms s = fmt2 s ++ " seconds") ∧
    (∀ s : ℚ, 60 ≤ s → s < 3600 →
      seconds_to_hms s =
        intStr ⌊s / 60⌋ ++ " minutes" ++ ", " ++ (fmt2 (pymod s 60) ++ " seconds")) ∧
    (∀ s : ℚ, 3600 ≤ s →
      seconds_to_hms s =
        intStr ⌊s / 3600⌋ ++ " hours" ++ ", " ++
          (if 0 < ⌊pymod s 3600 / 60⌋ then
            intStr ⌊pymod s 3600 / 60⌋ ++ " minutes" ++ ", " ++
              (fmt2 (pymod s 60) ++ " seconds")
          else fmt2 (pymod s 60) ++ " seconds")) ∧
    (∀ s : ℚ, ∃ pre ip fr,
      seconds_to_hms s = pre ++ (ip ++ "." ++ fr ++ " seconds") ∧ fr.length = 2) := by
  refine ⟨?_, ?_, ?_, ?_, ?_, ?_, ?_⟩
  · -- 3661 seconds
    have e1 : ⌊(3661:ℚ) / 3600⌋ = 1 := by norm_num
    have e2 : pymod 3661 3600 = 61 := by rw [pymod, e1]; norm_num
    have e4 : ⌊(3661:ℚ) / 60⌋ = 61 := by norm_num
    have e5 : pymod 3661 60 = 1 := by rw [pymod, e4]; norm_num
    have e3 : ⌊pymod (3661:ℚ) 3600 / 60⌋ = 1 := by rw [e2]; norm_num
    have efmt : fmt2 (pymod 3661 60) = "1.00" := by
      rw [e5]
      unfold fmt2
      rw [show ((1:ℚ) * 100) = ((100:ℤ) : ℚ) by norm_num, roundHalfEven_intCast]
      decide
    simp only [seconds_to_hms, e1, e3, efmt]
    decide
  · -- 45.5 seconds
    have e1 : ⌊(91:ℚ)/2 / 3600⌋ = 0 := floor_div_eq_zero (by norm_num) (by norm_num) (by norm_num)
    have e2 : pymod ((91:ℚ)/2) 3600 = (91:ℚ)/2 := pymod_eq_self e1
    have e3 : ⌊(91:ℚ)/2 / 60⌋ = 0 := floor_div_eq_zero (by norm_num) (by norm_num) (by norm_num)
    have e5 : pymod ((91:ℚ)/2) 60 = (91:ℚ)/2 := pymod_eq_self e3
    have efmt : fmt2 ((91:ℚ)/2) = "45.50" := by
      unfold fmt2
      rw [show ((91:ℚ)/2 * 100) = ((4550:ℤ) : ℚ) by norm_num, roundHalfEven_intCast]
      decide
    simp only [seconds_to_hms, e1, e2, e3, e5, efmt, lt_self_iff_false, if_false]
    decide
  · -- 7200 seconds: two hours, zero minutes — no minutes segment
    have e1 : ⌊(7200:ℚ) / 3600⌋ = 2 := by norm_num
    have e2 : pymod 7200 3600 = 0 := by rw [pymod, e1]; norm_num
    have e3 : ⌊pymod (7200:ℚ) 3600 / 60⌋ = 0 := by rw [e2]; norm_num
    have e4 : ⌊(7200:ℚ) / 60⌋ = 120 := by norm_num
    have e5 : pymod 7200 60 = 0 := by rw [pymod, e4]; norm_num
    have efmt : fmt2 (pymod 7200 60) = "0.00" := by
      rw [e5]
      unfold fmt2
      rw [show ((0:ℚ) * 100) = ((0:ℤ) : ℚ) by norm_num, roundHalfEven_intCast]
      decide
    simp only [seconds_to_hms, e1, e3, efmt, lt_self_iff_false, if_false]
    decide
  · -- below one minute: only the seconds segment
    intro s h0 h60
    have h1 : ⌊s / 3600⌋ = 0 := floor_div_eq_zero (by norm_num) h0 (by linarith)
    have h2 : pymod s 3600 = s := pymod_eq_self h1
    have h3 : ⌊s / 60⌋ = 0 := floor_div_eq_zero (by norm_num) h0 h60
    have h4 : pymod s 60 = s := pymod_eq_self h3
    simp only [seconds_to_hms, h1, h2, h3, h4, lt_self_iff_false, if_false]
    rfl
  · -- between one minute and one hour: minutes and seconds segments
    intro s h60 h3600
    have h0 : (0:ℚ) ≤ s := le_trans (by norm_num) h60
    have h1 : ⌊s / 3600⌋ = 0 := floor_div_eq_zero (by norm_num) h0 h3600
    have h2 : pymod s 3600 = s := pymod_eq_self h1
    have h3 : 0 < ⌊s / 60⌋ := floor_div_pos (by norm_num) h60
    simp only [seconds_to_hms, h1, h2, lt_self_iff_false, if_false, if_pos h3]
    rfl
  · -- at least one hour: the hours segment leads, and the minutes segment
    -- appears exactly when the minute count is positive
    intro s h3600
    have h3 : 0 < ⌊s / 3600⌋ := floor_div_pos (by norm_num) h3600
    simp only [seconds_to_hms, if_pos h3]
    by_cases hm : 0 < ⌊pymod s 3600 / 60⌋
    · rw [if_pos hm, if_pos hm]
      rfl
    · rw [if_neg hm, if_neg hm]
      rfl
  · -- seconds always rendered with exactly two decimal places
    intro s
    obtain ⟨pre, hpre⟩ := joinSegs_concat
      ((if 0 < ⌊s / 3600⌋ then [intStr ⌊s / 3600⌋ ++ " hours"] else []) ++
       (if 0 < ⌊pymod s 3600 / 60⌋ then [intStr ⌊pymod s 3600 / 60⌋ ++ " minutes"] else []))
      (fmt2 (pymod s 60) ++ " seconds")
    refine ⟨pre,
      (if roundHalfEven (pymod s 60 * 100) < 0 then "-" else "") ++
        natStr ((roundHalfEven (pymod s 60 * 100)).natAbs / 100),
      pad2 ((roundHalfEven (pymod s 60 * 100)).natAbs % 100), ?_,
      pad2_length _ (Nat.mod_lt _ (by norm_num))⟩
    show seconds_to_hms s = _
    simp only [seconds_to_hms]
    rw [hpre]
    rfl

/-- Witness for C8 at the inputs 45.5 (seconds only), 100 (minutes and
seconds), and 7200 (hours present, minutes omitted). -/
theorem seconds_to_hms_spec_witness :
    seconds_to_hms (mkRat 91 2) = fmt2 (mkRat 91 2) ++ " seconds" ∧
    seconds_to_hms 100 =
      intStr ⌊(100:ℚ) / 60⌋ ++ " minutes" ++ ", " ++ (fmt2 (pymod 100 60) ++ " seconds") ∧
    seconds_to_hms 7200 =
      intStr ⌊(7200:ℚ) / 3600⌋ ++ " hours" ++ ", " ++
        (if 0 < ⌊pymod (7200:ℚ) 3600 / 60⌋ then
          intStr ⌊pymod (7200:ℚ) 3600 / 60⌋ ++ " minutes" ++ ", " ++
            (fmt2 (pymod 7200 60) ++ " seconds")
        else fmt2 (pymod 7200 60) ++ " seconds") :=
  ⟨seconds_to_hms_spec.2.2.2.1 (mkRat 91 2) (by decide) (by decide),
   seconds_to_hms_spec.2.2.2.2.1 100 (by decide) (by decide),
   seconds_to_hms_spec.2.2.2.2.2.1 7200 (by decide)⟩

/-! ### Youtube-SL-25 batch step (claim C9)

The per-language body of `main` in `youtube-sl-25.py`: when the language
directory exists, `handle_existing_directory` decides whether to proceed;
on a negative decision the unit is skipped and the total progress bar is
still advanced by the number of the language's videos. -/

/-- The `--replace` conflict policy. -/
inductive ReplaceOption
  | all
  | skip
  | custom
  deriving DecidableEq, Repr

/-- An observable side effect of the batch step. -/
inductive FsEffect
  | removeDir (d : String)
  | makeDir (d : String)
  | netFetch (videoId : String)
  | writeFile (path : String)
  deriving DecidableEq, Repr

/-- The characters stripped from a video title before use in a filename. -/
def forbiddenChars : List Char := ['\\', '/', '*', '?', ':', '"', '<', '>', '|']

/-- Sanitize a title for use in a filename. -/
def sanitizeTitle (s : String) : String :=
  String.mk (s.data.filter (fun c => ¬ c ∈ forbiddenChars))

/-- `download_video(video_id, directory_name)`: fetches the video (one
network interaction); on success writes the stream to
`<dir>/<id>_<sanitized title>.mp4`; a fetch failure is caught and only
printed.  `fetch` gives the video title on success. -/
def download_video (fetch : String → Option String) (videoId dir : String) :
    List FsEffect :=
  match fetch videoId with
  | some title =>
    [.netFetch videoId, .writeFile (joinPath dir (videoId ++ "_" ++ sanitizeTitle title ++ ".mp4"))]
  | none => [.netFetch videoId]

/-- `handle_existing_directory(directory_name, replace_option)`: whether to
proceed, together with the filesystem effects performed while deciding
(`rm -rf` plus directory re-creation when replacing).  `answerYes` is the
interactive answer used by the `custom` policy. -/
def handle_existing_directory (dir : String) (opt : ReplaceOption) (answerYes : Bool) :
    Bool × List FsEffect :=
  match opt with
  | .all => (true, [.removeDir dir, .makeDir dir])
  | .skip => (false, [])
  | .custom =>
    if answerYes then (true, [.removeDir dir, .makeDir dir]) else (false, [])

/-- One iteration of the `for language in languages` loop of `main`:
returns the effects performed for the unit and the amount added to the
total progress counter. -/
def processLanguage (fetch : String → Option String) (outputDir language : String)
    (dirExists : Bool) (opt : ReplaceOption) (answerYes : Bool)
    (langVideos : List String) : List FsEffect × Nat :=
  let langDir := joinPath outputDir language
  if dirExists then
    let h := handle_existing_directory langDir opt answerYes
    if h.1 then
      (h.2 ++ (langVideos.map (fun v => download_video fetch v langDir)).flatten,
        langVideos.length)
    else
      (h.2, langVideos.length)
  else
    ([.makeDir langDir] ++ (langVideos.map (fun v => download_video fetch v langDir)).flatten,
      langVideos.length)

/-! ### Claim C9 -/

/-- C9: running the batch step on a unit whose output directory already
exists, under conflict policy `skip`, performs no effect at all — no
network call, no filesystem write, no directory removal, so the existing
output is untouched — and still advances the total progress counter by
the full number of the unit's videos. -/
theorem skip_existing_unit_no_effects (fetch : String → Option String)
    (outputDir language : String) (dirExists : Bool) (opt : ReplaceOption)
    (answerYes : Bool) (langVideos : List String)
    (hexists : dirExists = true) (hopt : opt = .skip) :
    processLanguage fetch outputDir language dirExists opt answerYes langVideos =
      ([], langVideos.length) := by
  subst hexists hopt
  rfl

/-- Witness for C9 at a concrete three-video unit. -/
theorem skip_existing_unit_no_effects_witness :
    processLanguage (fun v => some ("t" ++ v)) "/out" "ase" true .skip false
        ["a1", "b2", "c3"] = ([], 3) :=
  skip_existing_unit_no_effects (fun v => some ("t" ++ v)) "/out" "ase" true .skip false
    ["a1", "b2", "c3"] rfl rfl

/-! ### Dataset Table persistence (claim C3)

Modelled from the spec: the Dataset Table is persisted by pandas
`to_csv` and reloaded by `read_csv(header=[0,1], index_col=0)`, code that
lives outside this repository.  Following the spec's words, the persisted
file is modelled as a delimited tabular structure — two header lines (the
two-level column namespace) and one line per row keyed by the entry
identifier — whose cells carry the serialized text forms of the values:
an empty cell for null, the bare text for a string, the bracketed
quoted-element form for a *Multiple* list (with `None` in failed
positions), a fixed two-decimal form for a duration, and the
parenthesised pair form for dimensions.  `read_csv` reconstructs every
value, list-valued cells included, from that text. -/

/-- A value held in a Dataset Table cell: null, a raw string (catalog
attributes, URLs, single local paths), a *Multiple* ledger list, a
duration, or a dimensions pair. -/
inductive Value
  | null
  | str (s : String)
  | vlist (ps : List (Option String))
  | num (q : ℚ)
  | dims (w h : Option ℕ)
  deriving DecidableEq, Repr

/-- The single-quote character used around serialized list elements. -/
def quoteChar : Char := Char.ofNat 39

/-- Decimal characters of `n`, `"0"` included. -/
def natCharsStr (n : ℕ) : List Char := if n = 0 then ['0'] else natChars n

/-- Two-digit decimal characters of a value below 100. -/
def pad2Chars (m : ℕ) : List Char := if m < 10 then '0' :: natCharsStr m else natCharsStr m

/-- Serialized form of one list element: `None` or the quoted path. -/
def serOptPath : Option String → List Char
  | none => ['N', 'o', 'n', 'e']
  | some p => quoteChar :: (p.data ++ [quoteChar])

/-- Serialized form of the comma-separated list elements. -/
def serItems : List (Option String) → List Char
  | [] => []
  | [x] => serOptPath x
  | x :: xs => serOptPath x ++ ',' :: ' ' :: serItems xs

/-- Serialized form of one dimensions component: `None` or the number. -/
def serNatItem : Option ℕ → List Char
  | none => ['N', 'o', 'n', 'e']
  | some n => natCharsStr n

/-- The scaled integer (hundredths) of a duration value. -/
def centi (q : ℚ) : ℕ := q.num.toNat * (100 / q.den)

/-- Serialized text of a cell value. -/
def cellChars : Value → List Char
  | .null => []
  | .str s => s.data
  | .vlist ps => '[' :: (serItems ps ++ [']'])
  | .num q => natCharsStr (centi q / 100) ++ '.' :: pad2Chars (centi q % 100)
  | .dims w h => '(' :: (serNatItem w ++ ',' :: ' ' :: (serNatItem h ++ [')']))

/-- Serialized text of a cell value, as a string. -/
def cellStr (v : Value) : String := String.mk (cellChars v)

/-- Consume characters up to the closing quote. -/
def parseQuoted : List Char → Option (List Char × List Char)
  | [] => none
  | c :: cs =>
    if c = quoteChar then some ([], cs)
    else (parseQuoted cs).map (fun p => (c :: p.1, p.2))

/-- Parse one list element (`None` or a quoted path), returning it and the
remaining input. -/
def parseItem (l : List Char) : Option (Option String × List Char) :=
  if l.take 4 = ['N', 'o', 'n', 'e'] then some (none, l.drop 4)
  else
    match l with
    | c :: rest =>
      if c = quoteChar then (parseQuoted rest).map (fun p => (some (String.mk p.1), p.2))
      else none
    | [] => none

/-- Parse one or more comma-separated elements followed by the closing
bracket; the fuel bounds the number of elements. -/
def parseItemsFuel : ℕ → List Char → Option (List (Option String))
  | 0, _ => none
  | fuel + 1, l => do
    let (x, r) ← parseItem l
    if r = [']'] then some [x]
    else
      match r with
      | ',' :: ' ' :: r2 => (parseItemsFuel fuel r2).map (x :: ·)
      | _ => none

/-- Parse the part of a list cell after the opening bracket. -/
def parseListBody (l : List Char) : Option (List (Option String)) :=
  if l = [']'] then some [] else parseItemsFuel l.length l

/-- Split a leading run of decimal digits from the input. -/
def takeDigits : List Char → List Char × List Char
  | [] => ([], [])
  | c :: cs =>
    if c.isDigit then
      let p := takeDigits cs
      (c :: p.1, p.2)
    else ([], c :: cs)

/-- Numeric value of a big-endian digit-character list. -/
def charsVal (l : List Char) : ℕ := l.foldl (fun a c => a * 10 + (c.toNat - 48)) 0

/-- Parse a duration cell: digits, a dot, exactly two digits. -/
def parseNum (l : List Char) : Option ℚ :=
  let p := takeDigits l
  if p.1 = [] then none
  else
    match p.2 with
    | '.' :: d1 :: d2 :: [] =>
      if d1.isDigit && d2.isDigit then
        some (mkRat (charsVal p.1 * 100 + charsVal [d1, d2]) 100)
      else none
    | _ => none

/-- Parse one dimensions component (`None` or a number). -/
def parseNatItem (l : List Char) : Option (Option ℕ × List Char) :=
  if l.take 4 = ['N', 'o', 'n', 'e'] then some (none, l.drop 4)
  else
    let p := takeDigits l
    if p.1 = [] then none else some (some (charsVal p.1), p.2)

/-- Parse the part of a dimensions cell after the opening parenthesis. -/
def parseDims (l : List Char) : Option (Option ℕ × Option ℕ) := do
  let (w, r) ← parseNatItem l
  match r with
  | ',' :: ' ' :: r2 => do
    let (h, r3) ← parseNatItem r2
    if r3 = [')'] then some (w, h) else none
  | _ => none

/-- Reconstruct a cell value from its serialized text. -/
def cellOfChars (l : List Char) : Option Value :=
  match l with
  | [] => some .null
  | c :: rest =>
    if c = '[' then (parseListBody rest).map .vlist
    else if c = '(' then (parseDims rest).map (fun p => .dims p.1 p.2)
    else if c.isDigit then (parseNum l).map .num
    else some (.str (String.mk l))

/-- A head character that keeps a string cell distinguishable from the
other serialized forms. -/
def strHeadOK : List Char → Prop
  | [] => False
  | c :: _ => c ≠ '[' ∧ c ≠ '(' ∧ c.isDigit = false

instance : (l : List Char) → Decidable (strHeadOK l)
  | [] => isFalse (fun h => h)
  | _ :: _ => inferInstanceAs (Decidable (_ ∧ _ ∧ _))

/-- Well-formedness of a cell value for lossless persistence: strings are
non-empty and do not mimic another form's first character, list elements
contain no quote character, and durations are non-negative hundredths. -/
def ValueWF : Value → Prop
  | .null => True
  | .str s => strHeadOK s.data
  | .vlist ps => ∀ x ∈ ps, ∀ p, x = some p → quoteChar ∉ p.data
  | .num q => 0 ≤ q ∧ q.den ∣ 100
  | .dims _ _ => True

instance (x : Option String) : Decidable (∀ p, x = some p → quoteChar ∉ p.data) :=
  match x with
  | none => isTrue (by simp)
  | some s => decidable_of_iff (quoteChar ∉ s.data) (by simp)

instance : (v : Value) → Decidable (ValueWF v)
  | .null => isTrue trivial
  | .str s => inferInstanceAs (Decidable (strHeadOK s.data))
  | .vlist ps => inferInstanceAs (Decidable (∀ x ∈ ps, _))
  | .num _q => inferInstanceAs (Decidable (_ ∧ _))
  | .dims _ _ => isTrue trivial

/-- A Dataset Table: the two-level column namespace and the rows, each
keyed by the entry identifier. -/
structure Table where
  header : List (String × String)
  rows : List (String × List Value)
  deriving DecidableEq, Repr

/-- Every value of every row is well-formed. -/
def TableWF (t : Table) : Prop := ∀ r ∈ t.rows, ∀ v ∈ r.2, ValueWF v

instance (t : Table) : Decidable (TableWF t) :=
  inferInstanceAs (Decidable (∀ r ∈ t.rows, _))

/-- Modelled from the spec: pandas `DataFrame.to_csv` is external to the
repository.  Persist the table as the spec's delimited tabular form: two
header lines (groups, then field names, each with an empty leading cell
above the identifier column), then one line per row keyed by the entry
identifier, every cell holding the value's serialized text. -/
def to_csv (t : Table) : List (List String) :=
  ("" :: t.header.map Prod.fst) ::
    ("" :: t.header.map Prod.snd) ::
    t.rows.map (fun r => r.1 :: r.2.map cellStr)

/-- `Option`-valued map over a list, failing when any element fails. -/
def mapOption (f : α → Option β) : List α → Option (List β)
  | [] => some []
  | x :: xs => do
    let y ← f x
    let ys ← mapOption f xs
    pure (y :: ys)

/-- Reconstruct one row from its line. -/
def parseRow : List String → Option (String × List Value)
  | [] => none
  | id1 :: cells =>
    (mapOption (fun c => cellOfChars c.data) cells).map (fun vs => (id1, vs))

/-- Modelled from the spec: pandas `read_csv(header=[0,1], index_col=0)`
is external to the repository.  Reload the table from its persisted
lines, reconstructing the two-level header and every cell value from its
serialized text form. -/
def read_csv : List (List String) → Option Table
  | (g0 :: gs) :: (f0 :: fs) :: rest =>
    if g0 = "" ∧ f0 = "" ∧ gs.length = fs.length then
      (mapOption parseRow rest).map (fun rows => ⟨gs.zip fs, rows⟩)
    else none
  | _ => none

/-! ### Round-trip of the serialized cell forms -/

theorem parseQuoted_append (l rest : List Char) (h : quoteChar ∉ l) :
    parseQuoted (l ++ quoteChar :: rest) = some (l, rest) := by
  induction l with
  | nil => simp [parseQuoted]
  | cons c cs ih =>
    have hc : ¬ (c = quoteChar) := fun hh => h (hh ▸ List.mem_cons_self c cs)
    have hcs : quoteChar ∉ cs := fun hh => h (List.mem_cons_of_mem c hh)
    simp [parseQuoted, hc, ih hcs]

theorem parseItem_none_ser (rest : List Char) :
    parseItem (serOptPath none ++ rest) = some (none, rest) := by
  simp [parseItem, serOptPath]

theorem parseItem_some_ser (p : String) (rest : List Char) (h : quoteChar ∉ p.data) :
    parseItem (serOptPath (some p) ++ rest) = some (some p, rest) := by
  have hform : serOptPath (some p) ++ rest = quoteChar :: (p.data ++ quoteChar :: rest) := by
    simp [serOptPath]
  rw [hform]
  have htake : ¬ ((quoteChar :: (p.data ++ quoteChar :: rest)).take 4 = ['N', 'o', 'n', 'e']) := by
    intro hcontra
    rw [List.take_cons (by omega)] at hcontra
    exact absurd (List.cons.inj hcontra).1 (by decide)
  simp only [parseItem, htake, if_false]
  simp [parseQuoted_append p.data rest h]

theorem parseItem_ser (x : Option String) (rest : List Char)
    (h : ∀ p, x = some p → quoteChar ∉ p.data) :
    parseItem (serOptPath x ++ rest) = some (x, rest) := by
  cases x with
  | none => exact parseItem_none_ser rest
  | some p => exact parseItem_some_ser p rest (h p rfl)

theorem serOptPath_length_pos (x : Option String) : 1 ≤ (serOptPath x).length := by
  cases x <;> simp [serOptPath]

theorem serItems_length (ps : List (Option String)) (h : ps ≠ []) :
    ps.length ≤ (serItems ps).length := by
  induction ps with
  | nil => simp at h
  | cons x xs ih =>
    cases xs with
    | nil =>
      simpa [serItems] using serOptPath_length_pos x
    | cons y ys =>
      have hih := ih (by simp)
      have hx := serOptPath_length_pos x
      simp only [serItems, List.length_append, List.length_cons] at hih hx ⊢
      omega

theorem parseItemsFuel_ser : ∀ (ps : List (Option String)) (fuel : ℕ), ps ≠ [] →
    ps.length ≤ fuel →
    (∀ x ∈ ps, ∀ p, x = some p → quoteChar ∉ p.data) →
    parseItemsFuel fuel (serItems ps ++ [']']) = some ps := by
  intro ps
  induction ps with
  | nil => intro fuel h; exact absurd rfl h
  | cons x xs ih =>
    intro fuel _ hlen hwf
    obtain ⟨f, rfl⟩ : ∃ f, fuel = f + 1 := ⟨fuel - 1, by simp at hlen; omega⟩
    have hx : ∀ p, x = some p → quoteChar ∉ p.data := hwf x (by simp)
    cases xs with
    | nil =>
      have hitem := parseItem_ser x [']'] hx
      simp [parseItemsFuel, serItems, hitem]
    | cons y ys =>
      have hform : serItems (x :: y :: ys) ++ [']'] =
          serOptPath x ++ (',' :: ' ' :: (serItems (y :: ys) ++ [']'])) := by
        simp [serItems]
      have hitem := parseItem_ser x (',' :: ' ' :: (serItems (y :: ys) ++ [']'])) hx
      have hrec := ih f (by simp) (by simp at hlen ⊢; omega)
        (fun z hz p hp => hwf z (by simp [hz]) p hp)
      rw [hform]
      simp only [parseItemsFuel, hitem, Option.bind_some]
      have hne : ¬ ((',' :: ' ' :: (serItems (y :: ys) ++ [']'])) = [']']) := by simp
      simp [hne, hrec]

theorem parseListBody_ser (ps : List (Option String))
    (hwf : ∀ x ∈ ps, ∀ p, x = some p → quoteChar ∉ p.data) :
    parseListBody (serItems ps ++ [']']) = some ps := by
  cases ps with
  | nil => simp [parseListBody, serItems]
  | cons x xs =>
    have hlen1 : (x :: xs).length ≤ (serItems (x :: xs)).length :=
      serItems_length _ (by simp)
    have hne : ¬ (serItems (x :: xs) ++ [']'] = [']']) := by
      intro hcontra
      have hl := congrArg List.length hcontra
      simp at hl
      simp [hl] at hlen1
    rw [parseListBody, if_neg hne]
    exact parseItemsFuel_ser (x :: xs) _ (by simp) (by simp at hlen1 ⊢; omega) hwf

theorem digitChar_isDigit (d : ℕ) (h : d < 10) : (digitChar d).isDigit = true := by
  interval_cases d <;> decide

theorem digitChar_toNat (d : ℕ) (h : d < 10) : (digitChar d).toNat - 48 = d := by
  interval_cases d <;> decide

theorem natCharsStr_digits (n : ℕ) : ∀ c ∈ natCharsStr n, c.isDigit = true := by
  intro c hc
  by_cases h0 : n = 0
  · subst h0
    simp only [natCharsStr, if_true, List.mem_singleton] at hc
    subst hc
    decide
  · simp only [natCharsStr, h0, if_false, natChars, List.mem_map, List.mem_reverse] at hc
    obtain ⟨d, hd, rfl⟩ := hc
    exact digitChar_isDigit d (natDigitsAux_lt10 n n d hd)

theorem natCharsStr_ne_nil (n : ℕ) : natCharsStr n ≠ [] := by
  by_cases h0 : n = 0
  · subst h0; simp [natCharsStr]
  · obtain ⟨k, rfl⟩ : ∃ k, n = k + 1 := ⟨n - 1, by omega⟩
    simp [natCharsStr, natChars, natDigits, natDigitsAux]

theorem charsVal_digits : ∀ (ds : List ℕ), (∀ d ∈ ds, d < 10) → ∀ a : ℕ,
    ((ds.reverse.map digitChar).foldl (fun a c => a * 10 + (c.toNat - 48)) a) =
      a * 10 ^ ds.length + digitsVal ds := by
  intro ds
  induction ds with
  | nil => intro _ a; simp [digitsVal]
  | cons d ds ih =>
    intro hds a
    have hd : d < 10 := hds d (by simp)
    have hds2 : ∀ x ∈ ds, x < 10 := fun x hx => hds x (by simp [hx])
    rw [List.reverse_cons, List.map_append, List.foldl_append, ih hds2 a]
    simp only [List.map_cons, List.map_nil, List.foldl_cons, List.foldl_nil,
      digitsVal, List.length_cons]
    rw [digitChar_toNat d hd]
    ring

theorem charsVal_natCharsStr (n : ℕ) : charsVal (natCharsStr n) = n := by
  by_cases h0 : n = 0
  · subst h0; decide
  · simp only [natCharsStr, h0, if_false, charsVal, natChars]
    rw [charsVal_digits (natDigits n) (fun d hd => natDigitsAux_lt10 n n d hd) 0]
    simp [natDigits_val n]

theorem takeDigits_append : ∀ (ds rest : List Char), (∀ c ∈ ds, c.isDigit = true) →
    (∀ c, rest.head? = some c → c.isDigit = false) →
    takeDigits (ds ++ rest) = (ds, rest) := by
  intro ds
  induction ds with
  | nil =>
    intro rest _ hrest
    cases rest with
    | nil => rfl
    | cons c cs =>
      have := hrest c rfl
      simp [takeDigits, this]
  | cons c cs ih =>
    intro rest hds hrest
    have hc := hds c (by simp)
    have hcs : ∀ x ∈ cs, x.isDigit = true := fun x hx => hds x (List.mem_cons_of_mem c hx)
    simp [takeDigits, hc, ih rest hcs hrest]

theorem charsVal_pair (d1 d2 : Char) :
    charsVal [d1, d2] = (d1.toNat - 48) * 10 + (d2.toNat - 48) := by
  simp only [charsVal, List.foldl_cons, List.foldl_nil]
  omega

theorem pad2Chars_eq (m : ℕ) (h : m < 100) :
    ∃ d1 d2, pad2Chars m = [d1, d2] ∧ d1.isDigit = true ∧ d2.isDigit = true ∧
      charsVal [d1, d2] = m := by
  by_cases h10 : m < 10
  · refine ⟨'0', digitChar m, ?_, by decide, digitChar_isDigit m h10, ?_⟩
    · by_cases h0 : m = 0
      · subst h0; decide
      · simp only [pad2Chars, h10, if_true, natCharsStr, h0, if_false, natChars,
          natDigits_small m (Nat.pos_of_ne_zero h0) h10]
        rfl
    · rw [charsVal_pair]
      have h48 : Char.toNat '0' - 48 = 0 := by decide
      rw [h48, digitChar_toNat m h10]
      omega
  · push_neg at h10
    refine ⟨digitChar (m / 10), digitChar (m % 10), ?_, digitChar_isDigit _ (by omega),
      digitChar_isDigit _ (by omega), ?_⟩
    · simp only [pad2Chars, show ¬ (m < 10) by omega, if_false, natCharsStr,
        show ¬ (m = 0) by omega, if_false, natChars, natDigits_two m h10 h]
      rfl
    · rw [charsVal_pair, digitChar_toNat _ (by omega), digitChar_toNat _ (by omega)]
      omega

theorem centi_cast (q : ℚ) (h0 : 0 ≤ q) (hdvd : q.den ∣ 100) :
    ((centi q : ℕ) : ℚ) = q * 100 := by
  have hk : (q.den * (100 / q.den) : ℕ) = 100 := Nat.mul_div_cancel' hdvd
  have hnum : ((q.num.toNat : ℤ)) = q.num := Int.toNat_of_nonneg (Rat.num_nonneg.mpr h0)
  have hdnz : ((q.den : ℚ)) ≠ 0 := Nat.cast_ne_zero.mpr q.den_nz
  have hq : (q.num : ℚ) = q * (q.den : ℚ) := (div_eq_iff hdnz).mp (Rat.num_div_den q)
  have hsplit : ((centi q : ℕ) : ℚ) = ((q.num.toNat : ℕ) : ℚ) * (((100 / q.den : ℕ)) : ℚ) := by
    rw [centi]
    push_cast
    ring
  have h1 : ((q.num.toNat : ℕ) : ℚ) = (q.num : ℚ) := by exact_mod_cast hnum
  have h2 : ((100:ℚ)) = ((q.den : ℚ)) * (((100 / q.den : ℕ)) : ℚ) := by
    exact_mod_cast hk.symm
  rw [hsplit, h1, hq]
  calc q * (q.den : ℚ) * ((100 / q.den : ℕ) : ℚ)
      = q * ((q.den : ℚ) * ((100 / q.den : ℕ) : ℚ)) := by ring
    _ = q * 100 := by rw [← h2]

theorem mkRat_centi (q : ℚ) (h0 : 0 ≤ q) (hdvd : q.den ∣ 100) :
    mkRat (centi q) 100 = q := by
  rw [Rat.mkRat_eq_divInt, Rat.divInt_eq_div]
  push_cast
  rw [centi_cast q h0 hdvd]
  exact mul_div_cancel_right₀ q (by norm_num)

theorem parseNum_ser (q : ℚ) (h0 : 0 ≤ q) (hdvd : q.den ∣ 100) :
    parseNum (cellChars (.num q)) = some q := by
  obtain ⟨d1, d2, hpad, hd1, hd2, hval⟩ := pad2Chars_eq (centi q % 100)
    (Nat.mod_lt _ (by norm_num))
  have htake : takeDigits (natCharsStr (centi q / 100) ++ '.' :: pad2Chars (centi q % 100)) =
      (natCharsStr (centi q / 100), '.' :: pad2Chars (centi q % 100)) :=
    takeDigits_append _ _ (natCharsStr_digits _)
      (by intro c hc; simp at hc; subst hc; decide)
  rw [hpad] at htake
  simp only [cellChars, parseNum, hpad, htake, natCharsStr_ne_nil (centi q / 100), if_false,
    hd1, hd2, Bool.and_self, if_true, charsVal_natCharsStr, hval]
  have hrecomb : ((centi q / 100 : ℕ) : ℤ) * 100 + ((centi q % 100 : ℕ) : ℤ) =
      ((centi q : ℕ) : ℤ) := by
    push_cast
    omega
  rw [hrecomb]
  exact congrArg some (mkRat_centi q h0 hdvd)

theorem parseNatItem_none_ser (rest : List Char) :
    parseNatItem (serNatItem none ++ rest) = some (none, rest) := by
  unfold parseNatItem serNatItem
  simp [List.take, List.drop]

theorem natCharsStr_head_digit (n : ℕ) (c : Char) (t : List Char)
    (h : natCharsStr n = c :: t) : c.isDigit = true :=
  natCharsStr_digits n c (by rw [h]; simp)

theorem parseNatItem_some_ser (n : ℕ) (rest : List Char)
    (hrest : ∀ c, rest.head? = some c → c.isDigit = false) :
    parseNatItem (serNatItem (some n) ++ rest) = some (some n, rest) := by
  have htake := takeDigits_append (natCharsStr n) rest (natCharsStr_digits n) hrest
  have hN : ¬ ((natCharsStr n ++ rest).take 4 = ['N', 'o', 'n', 'e']) := by
    intro hcontra
    cases hsplit : natCharsStr n with
    | nil => exact natCharsStr_ne_nil n hsplit
    | cons c t =>
      have hcdig := natCharsStr_head_digit n c t hsplit
      simp only [hsplit, List.cons_append, List.take_cons (by omega : 0 < 4)] at hcontra
      have hcN : c = 'N' := (List.cons.inj hcontra).1
      rw [hcN] at hcdig
      exact absurd hcdig (by decide)
  simp only [parseNatItem, serNatItem, hN, if_false, htake, natCharsStr_ne_nil n,
    charsVal_natCharsStr]

theorem parseNatItem_ser (x : Option ℕ) (rest : List Char)
    (hrest : ∀ c, rest.head? = some c → c.isDigit = false) :
    parseNatItem (serNatItem x ++ rest) = some (x, rest) := by
  cases x with
  | none => exact parseNatItem_none_ser rest
  | some n => exact parseNatItem_some_ser n rest hrest

theorem parseDims_ser (wv hv : Option ℕ) :
    parseDims (serNatItem wv ++ ',' :: ' ' :: (serNatItem hv ++ [')'])) = some (wv, hv) := by
  have h1 := parseNatItem_ser wv (',' :: ' ' :: (serNatItem hv ++ [')']))
    (by intro c hc; simp at hc; subst hc; decide)
  have h2 := parseNatItem_ser hv [')']
    (by intro c hc; simp at hc; subst hc; decide)
  simp [parseDims, h1, h2]

/-- Parsing the serialized text of any well-formed value recovers the
value. -/
theorem cellOfChars_cellChars (v : Value) (hwf : ValueWF v) :
    cellOfChars (cellChars v) = some v := by
  cases v with
  | null => rfl
  | str s =>
    cases hd : s.data with
    | nil => rw [ValueWF, hd] at hwf; exact absurd hwf (by simp [strHeadOK])
    | cons c t =>
      rw [ValueWF, hd] at hwf
      obtain ⟨h1, h2, h3⟩ := hwf
      simp only [cellChars, hd, cellOfChars, h1, h2, h3, if_false]
      rw [if_neg (by simp), ← hd]

  | vlist ps =>
    simp only [cellChars, cellOfChars, if_pos rfl]
    rw [parseListBody_ser ps hwf]
    rfl
  | num q =>
    obtain ⟨h0, hdvd⟩ := hwf
    cases hsplit : natCharsStr (centi q / 100) with
    | nil => exact absurd hsplit (natCharsStr_ne_nil _)
    | cons c t =>
      have hcdig := natCharsStr_head_digit _ c t hsplit
      have hform : cellChars (.num q) = c :: (t ++ '.' :: pad2Chars (centi q % 100)) := by
        simp [cellChars, hsplit]
      have hc1 : ¬ (c = '[') := fun hh => by rw [hh] at hcdig; exact absurd hcdig (by decide)
      have hc2 : ¬ (c = '(') := fun hh => by rw [hh] at hcdig; exact absurd hcdig (by decide)
      rw [hform, cellOfChars]
      simp only [hc1, hc2, hcdig, if_false, if_true]
      rw [← hform, parseNum_ser q h0 hdvd]
      rfl
  | dims wv hv =>
    simp [cellChars, cellOfChars, parseDims_ser wv hv]

theorem mapOption_cells : ∀ (vs : List Value), (∀ v ∈ vs, ValueWF v) →
    mapOption (fun c => cellOfChars c.data) (vs.map cellStr) = some vs := by
  intro vs
  induction vs with
  | nil => intro _; rfl
  | cons v vs ih =>
    intro hwf
    have hv := cellOfChars_cellChars v (hwf v (by simp))
    have hvs := ih (fun x hx => hwf x (List.mem_cons_of_mem v hx))
    simp only [List.map_cons, mapOption, Option.bind_eq_bind]
    rw [show (cellStr v).data = cellChars v from rfl, hv, hvs]
    rfl

theorem parseRow_ser (r : String × List Value) (hwf : ∀ v ∈ r.2, ValueWF v) :
    parseRow (r.1 :: r.2.map cellStr) = some r := by
  simp [parseRow, mapOption_cells r.2 hwf]

theorem mapOption_rows : ∀ (rows : List (String × List Value)),
    (∀ r ∈ rows, ∀ v ∈ r.2, ValueWF v) →
    mapOption parseRow (rows.map (fun r => r.1 :: r.2.map cellStr)) = some rows := by
  intro rows
  induction rows with
  | nil => intro _; rfl
  | cons r rs ih =>
    intro hwf
    have hr := parseRow_ser r (hwf r (by simp))
    have hrs := ih (fun x hx => hwf x (List.mem_cons_of_mem r hx))
    simp only [List.map_cons, mapOption, Option.bind_eq_bind]
    rw [hr, hrs]
    rfl

theorem zip_map_fst_snd (l : List (String × String)) :
    (l.map Prod.fst).zip (l.map Prod.snd) = l := by
  induction l with
  | nil => rfl
  | cons x xs ih => simp [ih]

/-! ### Claim C3 -/

/-- C3: persisting a well-formed Dataset Table to its delimited tabular
form and reading it back with the two-level header and the identifier
index reproduces the identical table — Catalog, Ledger, and Metadata
values alike, *Multiple*-valued cells being reconstructed as equal
ordered lists from their serialized text. -/
theorem table_roundtrip (t : Table) (hwf : TableWF t) : read_csv (to_csv t) = some t := by
  simp only [to_csv, read_csv]
  rw [if_pos (by simp), mapOption_rows t.rows hwf]
  simp [zip_map_fst_snd]

/-- A concrete Dataset Table exercising every value form: strings, a
*Multiple* list with a failed (null) element, a two-decimal duration and
dimensions. -/
def tableW : Table :=
  { header := [("Data", "Age Group"), ("URLs", "OpenPose"), ("Paths", "OpenPose"),
               ("Metadata", "Video Total Duration"), ("Metadata", "Video Total Dimensions")],
    rows := [("title__0", [.str "adult", .str "http://host/p1.json",
                .vlist [some "p1.json", none], .num (mkRat 123 10),
                .dims (some 1280) (some 720)]),
             ("title__1", [.null, .null, .null, .num 0, .dims none none])] }

/-- Witness for C3 at the concrete table. -/
theorem table_roundtrip_witness : read_csv (to_csv tableW) = some tableW :=
  table_roundtrip tableW (by decide)

end SignLanguage
